import Mathlib

/-!
Verification development for the car-dealership pricing and statistics
engine (`src/core/calculator.py`, `src/utils/statistics.py`,
`src/models/car.py`).

Modelling conventions.  Python floats are modelled as exact rationals
(`ℚ`): every formula in the source is rational arithmetic, and the builtin
`round` is round-half-to-even on the mathematical value (`pyRound` below).
Python `int` is `ℤ`.  Functions that can raise are modelled with `Except`;
a raised `ZeroDivisionError` or `ValueError` becomes an `Except.error`.
-/

namespace AutoStat

/-- Python builtin `round(q)`: round half to even, returning an integer. -/
def pyRound (q : ℚ) : ℤ :=
  if q + 1/2 = (⌊q + 1/2⌋ : ℚ) ∧ ⌊q + 1/2⌋ % 2 ≠ 0 then ⌊q + 1/2⌋ - 1
  else ⌊q + 1/2⌋

/-- Python `round(q, d)`: round to `d` decimal digits, half to even. -/
def pyRoundTo (q : ℚ) (d : ℕ) : ℚ :=
  (pyRound (q * 10 ^ d) : ℚ) / 10 ^ d

theorem pyRound_intCast (n : ℤ) : pyRound (n : ℚ) = n := by
  unfold pyRound
  have hfl : ⌊(n : ℚ) + 1/2⌋ = n := by
    rw [Int.floor_int_add]
    norm_num
  rw [hfl]
  have hne : ¬((n : ℚ) + 1/2 = (n : ℚ) ∧ n % 2 ≠ 0) := by
    rintro ⟨he, -⟩
    have : (1 : ℚ)/2 = 0 := by linarith
    norm_num at this
  rw [if_neg hne]

theorem pyRound_le (q : ℚ) : (pyRound q : ℚ) ≤ q + 1/2 := by
  unfold pyRound
  have h := Int.floor_le (q + 1/2)
  split
  · push_cast
    linarith
  · exact h

theorem le_pyRound (q : ℚ) : q - 1/2 ≤ (pyRound q : ℚ) := by
  unfold pyRound
  have h := Int.lt_floor_add_one (q + 1/2)
  split
  · rename_i hc
    obtain ⟨he, _⟩ := hc
    push_cast
    linarith [he.symm.le]
  · linarith

theorem pyRound_mono {p q : ℚ} (h : p ≤ q) : pyRound p ≤ pyRound q := by
  unfold pyRound
  have hfl : ⌊p + 1/2⌋ ≤ ⌊q + 1/2⌋ := Int.floor_mono (by linarith)
  split
  · split
    · omega
    · rename_i hp hq
      omega
  · split
    · rename_i hp hq
      -- `p` keeps its floor, `q` is a half-point adjusted down: show strict.
      obtain ⟨heq, hodd⟩ := hq
      rcases lt_or_eq_of_le hfl with hlt | hEq
      · omega
      · exfalso
        apply hp
        constructor
        · have : p + 1/2 ≥ (⌊p + 1/2⌋ : ℚ) := Int.floor_le (p + 1/2)
          have h2 : p + 1/2 ≤ q + 1/2 := by linarith
          have h3 : (⌊p + 1/2⌋ : ℚ) = (⌊q + 1/2⌋ : ℚ) := by exact_mod_cast hEq
          have h4 : p + 1/2 = (⌊p + 1/2⌋ : ℚ) := by
            rw [h3]
            rw [← heq] at h3 ⊢
            linarith
          exact h4
        · rw [hEq]
          exact hodd
    · omega

theorem pyRound_nonneg {q : ℚ} (h : 0 ≤ q) : 0 ≤ pyRound q := by
  have h0 : pyRound (0 : ℚ) = 0 := by
    have := pyRound_intCast 0
    simpa using this
  have := pyRound_mono (show (0:ℚ) ≤ q from h)
  omega

/-! ## `src/core/calculator.py`: `CarPriceCalculator` -/

/-- `CarPriceCalculator.CONDITION_FACTORS` from `src/core/calculator.py`. -/
def CONDITION_FACTORS : List (String × ℚ) :=
  [("excellent", 12/10), ("good", 1), ("average", 8/10),
   ("poor", 6/10), ("damaged", 4/10)]

/-- The state of a constructed `CarPriceCalculator`: the four constructor
arguments plus the captured `current_year`. -/
structure CarPriceCalculator where
  base_price : ℚ
  year : ℤ
  mileage : ℚ
  condition : String
  current_year : ℤ
deriving DecidableEq

/-- The constructor validation of `CarPriceCalculator.__init__`: it raises
`ValueError` unless all of these hold. -/
def CarPriceCalculator.Valid (c : CarPriceCalculator) : Prop :=
  0 < c.base_price ∧ 1900 ≤ c.year ∧ c.year ≤ c.current_year + 1 ∧
    0 ≤ c.mileage ∧ (CONDITION_FACTORS.lookup c.condition).isSome = true

instance (c : CarPriceCalculator) : Decidable c.Valid := by
  unfold CarPriceCalculator.Valid
  infer_instance

/-- `CarPriceCalculator.calculate_age_factor`:
`round(max(0.5, 1 - age * 0.03), 2)`. -/
def calculate_age_factor (c : CarPriceCalculator) : ℚ :=
  pyRoundTo (max (1/2) (1 - ((c.current_year - c.year : ℤ) : ℚ) * (3/100))) 2

/-- `CarPriceCalculator.calculate_mileage_factor`: discrete step function. -/
def calculate_mileage_factor (c : CarPriceCalculator) : ℚ :=
  if c.mileage < 50000 then 11/10
  else if c.mileage < 100000 then 1
  else if c.mileage < 150000 then 9/10
  else if c.mileage < 200000 then 8/10
  else 6/10

/-- `CarPriceCalculator.calculate_condition_factor`:
`CONDITION_FACTORS.get(condition, 1.0)`. -/
def calculate_condition_factor (c : CarPriceCalculator) : ℚ :=
  (CONDITION_FACTORS.lookup c.condition).getD 1

/-- The result dictionary of `calculate_market_price` (the numeric
entries; the two descriptive strings are omitted). -/
structure PriceResult where
  base_price : ℚ
  market_price : ℚ
  min_price : ℚ
  max_price : ℚ
  age_factor : ℚ
  mileage_factor : ℚ
  condition_factor : ℚ
  depreciation : ℚ
deriving DecidableEq

/-- `CarPriceCalculator.calculate_market_price` from
`src/core/calculator.py` (lines 140-196). -/
def calculate_market_price (c : CarPriceCalculator) : PriceResult :=
  let age_factor := calculate_age_factor c
  let mileage_factor := calculate_mileage_factor c
  let condition_factor := calculate_condition_factor c
  let raw := c.base_price * age_factor * mileage_factor * condition_factor
  let market_price : ℚ := (pyRound (raw / 1000) : ℚ) * 1000
  let min_price : ℚ := (pyRound (market_price * (9/10) / 1000) : ℚ) * 1000
  let max_price : ℚ := (pyRound (market_price * (11/10) / 1000) : ℚ) * 1000
  let depreciation0 := (1 - market_price / c.base_price) * 100
  let depreciation := if market_price > c.base_price then 0 else depreciation0
  { base_price := c.base_price
    market_price := market_price
    min_price := min_price
    max_price := max_price
    age_factor := age_factor
    mileage_factor := mileage_factor
    condition_factor := condition_factor
    depreciation := pyRoundTo depreciation 1 }

theorem age_factor_pos (c : CarPriceCalculator) : 0 < calculate_age_factor c := by
  unfold calculate_age_factor pyRoundTo
  have h1 : (1/2 : ℚ) ≤ max (1/2) (1 - ((c.current_year - c.year : ℤ) : ℚ) * (3/100)) :=
    le_max_left _ _
  have h2 : (50 : ℚ) ≤ max (1/2) (1 - ((c.current_year - c.year : ℤ) : ℚ) * (3/100)) * 10 ^ 2 := by
    nlinarith
  have h3 : pyRound ((50 : ℤ) : ℚ) ≤
      pyRound (max (1/2) (1 - ((c.current_year - c.year : ℤ) : ℚ) * (3/100)) * 10 ^ 2) := by
    apply pyRound_mono
    exact_mod_cast h2
  rw [pyRound_intCast] at h3
  have h4 : (50 : ℚ) ≤
      (pyRound (max (1/2) (1 - ((c.current_year - c.year : ℤ) : ℚ) * (3/100)) * 10 ^ 2) : ℚ) := by
    exact_mod_cast h3
  have : (0 : ℚ) < 10 ^ 2 := by norm_num
  positivity

theorem mileage_factor_pos (c : CarPriceCalculator) : 0 < calculate_mileage_factor c := by
  unfold calculate_mileage_factor
  split_ifs <;> norm_num

theorem condition_factor_pos (c : CarPriceCalculator) :
    0 < calculate_condition_factor c := by
  unfold calculate_condition_factor CONDITION_FACTORS
  simp only [List.lookup]
  repeat' split
  all_goals norm_num

theorem pyRoundTo_zero (d : ℕ) : pyRoundTo 0 d = 0 := by
  unfold pyRoundTo
  rw [zero_mul]
  have : pyRound ((0 : ℤ) : ℚ) = 0 := pyRound_intCast 0
  simp at this
  rw [this]
  simp

/-- C1: for every valid `CarPriceCalculator` input, the computed market
price satisfies `min_price ≤ market_price ≤ max_price` and
`market_price ≥ 0`. -/
theorem market_price_between_min_and_max (c : CarPriceCalculator) (h : c.Valid) :
    (calculate_market_price c).min_price ≤ (calculate_market_price c).market_price ∧
    (calculate_market_price c).market_price ≤ (calculate_market_price c).max_price ∧
    0 ≤ (calculate_market_price c).market_price := by
  have hbp : 0 < c.base_price := h.1
  have haf := age_factor_pos c
  have hmf := mileage_factor_pos c
  have hcf := condition_factor_pos c
  set raw := c.base_price * calculate_age_factor c * calculate_mileage_factor c *
    calculate_condition_factor c with hraw
  have hraw0 : 0 ≤ raw := by positivity
  set k := pyRound (raw / 1000) with hkdef
  have hk0 : 0 ≤ k := pyRound_nonneg (by positivity)
  have hkQ : (0 : ℚ) ≤ (k : ℚ) := by exact_mod_cast hk0
  have h9 : pyRound ((k : ℚ) * 1000 * (9/10) / 1000) ≤ k := by
    have harg : (k : ℚ) * 1000 * (9/10) / 1000 = (k : ℚ) * (9/10) := by ring
    rw [harg]
    calc pyRound ((k : ℚ) * (9/10)) ≤ pyRound ((k : ℚ)) :=
          pyRound_mono (by linarith)
      _ = k := pyRound_intCast k
  have h11 : k ≤ pyRound ((k : ℚ) * 1000 * (11/10) / 1000) := by
    have harg : (k : ℚ) * 1000 * (11/10) / 1000 = (k : ℚ) * (11/10) := by ring
    rw [harg]
    calc k = pyRound ((k : ℚ)) := (pyRound_intCast k).symm
      _ ≤ pyRound ((k : ℚ) * (11/10)) := pyRound_mono (by linarith)
  refine ⟨?_, ?_, ?_⟩ <;>
    simp only [calculate_market_price, ← hraw, ← hkdef]
  · have : (pyRound ((k : ℚ) * 1000 * (9/10) / 1000) : ℚ) ≤ (k : ℚ) := by
      exact_mod_cast h9
    nlinarith
  · have : (k : ℚ) ≤ (pyRound ((k : ℚ) * 1000 * (11/10) / 1000) : ℚ) := by
      exact_mod_cast h11
    nlinarith
  · nlinarith

/-- C1 witness: the valid calculator `(1500000, 2020, 50000, "good")` at
`current_year = 2024` satisfies the proved range property. -/
theorem market_price_between_min_and_max_witness :
    (calculate_market_price ⟨1500000, 2020, 50000, "good", 2024⟩).min_price ≤
      (calculate_market_price ⟨1500000, 2020, 50000, "good", 2024⟩).market_price ∧
    (calculate_market_price ⟨1500000, 2020, 50000, "good", 2024⟩).market_price ≤
      (calculate_market_price ⟨1500000, 2020, 50000, "good", 2024⟩).max_price ∧
    0 ≤ (calculate_market_price ⟨1500000, 2020, 50000, "good", 2024⟩).market_price :=
  market_price_between_min_and_max ⟨1500000, 2020, 50000, "good", 2024⟩
    ⟨by norm_num, by norm_num, by norm_num, by norm_num,
     by simp [CONDITION_FACTORS, List.lookup]⟩

/-- C2: the mileage factor is the step function with bands
`<50000 ↦ 1.1`, `[50000,100000) ↦ 1.0`, `[100000,150000) ↦ 0.9`,
`[150000,200000) ↦ 0.8`, `≥200000 ↦ 0.6`; each boundary value belongs to
the upper band (`50000 ↦ 1.0`, `100000 ↦ 0.9`, `150000 ↦ 0.8`,
`200000 ↦ 0.6`). -/
theorem mileage_factor_step_bands (c : CarPriceCalculator) :
    (c.mileage < 50000 → calculate_mileage_factor c = 11/10) ∧
    (50000 ≤ c.mileage → c.mileage < 100000 → calculate_mileage_factor c = 1) ∧
    (100000 ≤ c.mileage → c.mileage < 150000 → calculate_mileage_factor c = 9/10) ∧
    (150000 ≤ c.mileage → c.mileage < 200000 → calculate_mileage_factor c = 8/10) ∧
    (200000 ≤ c.mileage → calculate_mileage_factor c = 6/10) ∧
    (c.mileage = 50000 → calculate_mileage_factor c = 1) ∧
    (c.mileage = 100000 → calculate_mileage_factor c = 9/10) ∧
    (c.mileage = 150000 → calculate_mileage_factor c = 8/10) ∧
    (c.mileage = 200000 → calculate_mileage_factor c = 6/10) := by
  unfold calculate_mileage_factor
  refine ⟨?_, ?_, ?_, ?_, ?_, ?_, ?_, ?_, ?_⟩ <;> intros <;>
    split_ifs <;> first | rfl | linarith

/-- C2 witness: a calculator with mileage exactly 50000 gets factor 1.00,
not 1.10. -/
theorem mileage_factor_step_bands_witness :
    calculate_mileage_factor ⟨1500000, 2020, 50000, "good", 2024⟩ = 1 :=
  (mileage_factor_step_bands ⟨1500000, 2020, 50000, "good", 2024⟩).2.1
    (by norm_num [CarPriceCalculator.mileage]) (by norm_num [CarPriceCalculator.mileage])

/-- C3: the returned depreciation is `0` whenever
`market_price ≥ base_price`, and otherwise equals
`round((1 - market_price/base_price) * 100, 1)`. -/
theorem depreciation_of_market_price (c : CarPriceCalculator) (h : c.Valid) :
    (c.base_price ≤ (calculate_market_price c).market_price →
      (calculate_market_price c).depreciation = 0) ∧
    ((calculate_market_price c).market_price < c.base_price →
      (calculate_market_price c).depreciation =
        pyRoundTo ((1 - (calculate_market_price c).market_price / c.base_price) * 100) 1) := by
  have hbp : 0 < c.base_price := h.1
  constructor
  · intro hge
    simp only [calculate_market_price] at hge ⊢
    set m : ℚ := (pyRound (c.base_price * calculate_age_factor c *
      calculate_mileage_factor c * calculate_condition_factor c / 1000) : ℚ) * 1000 with hm
    by_cases hgt : m > c.base_price
    · rw [if_pos hgt]
      exact pyRoundTo_zero 1
    · have heq : m = c.base_price := le_antisymm (not_lt.mp hgt) hge
      rw [if_neg hgt, heq, div_self (ne_of_gt hbp)]
      norm_num
      exact pyRoundTo_zero 1
  · intro hlt
    simp only [calculate_market_price] at hlt ⊢
    set m : ℚ := (pyRound (c.base_price * calculate_age_factor c *
      calculate_mileage_factor c * calculate_condition_factor c / 1000) : ℚ) * 1000 with hm
    rw [if_neg (by linarith : ¬ m > c.base_price)]

/-- C3 witness: a depreciated car (2015, 120000 km, average condition at
2024) has `market_price < base_price` and depreciation equal to the
rounded percentage loss. -/
theorem depreciation_of_market_price_witness :
    (calculate_market_price ⟨1500000, 2015, 120000, "average", 2024⟩).market_price
        < (1500000 : ℚ) ∧
    (calculate_market_price ⟨1500000, 2015, 120000, "average", 2024⟩).depreciation =
      pyRoundTo ((1 - (calculate_market_price
        ⟨1500000, 2015, 120000, "average", 2024⟩).market_price / 1500000) * 100) 1 :=
  have hlt : (calculate_market_price
      ⟨1500000, 2015, 120000, "average", 2024⟩).market_price < (1500000 : ℚ) := by
    simp only [calculate_market_price, calculate_age_factor, calculate_mileage_factor,
      calculate_condition_factor, CONDITION_FACTORS, List.lookup, String.reduceBEq,
      Option.getD_some]
    norm_num [pyRound, pyRoundTo]
  ⟨hlt,
   (depreciation_of_market_price ⟨1500000, 2015, 120000, "average", 2024⟩
      ⟨by norm_num, by norm_num, by norm_num, by norm_num,
       by simp [CONDITION_FACTORS, List.lookup]⟩).2 hlt⟩

/-! ## `src/core/calculator.py`: `calculate_depreciation` -/

/-- The result dictionary of `calculate_depreciation`. -/
structure DepreciationResult where
  years_owned : ℤ
  annual_depreciation : ℚ
  total_depreciation : ℚ
  current_value : ℚ
  depreciation_percent : ℚ
deriving DecidableEq

/-- `calculate_depreciation` from `src/core/calculator.py` (lines 304-365).
The optional `current_year` argument (defaulting to the wall clock) is an
explicit parameter here. -/
def calculate_depreciation (purchase_price : ℚ) (purchase_year current_year : ℤ)
    (annual_rate : ℚ) : Except String DepreciationResult :=
  if purchase_year > current_year then
    .error "ValueError: purchase year after current year"
  else if purchase_price ≤ 0 then
    .error "ValueError: purchase price must be positive"
  else if annual_rate ≤ 0 ∨ annual_rate > 1 then
    .error "ValueError: annual rate must be between 0 and 1"
  else
    let years_owned := current_year - purchase_year
    let annual_depreciation := purchase_price * annual_rate
    let total_depreciation := annual_depreciation * (years_owned : ℚ)
    let current_value := max 0 (purchase_price - total_depreciation)
    let min_value := purchase_price * (1/10)
    let clamped := current_value < min_value
    let current_value2 := if clamped then min_value else current_value
    let total_depreciation2 :=
      if clamped then purchase_price - min_value else total_depreciation
    .ok { years_owned := years_owned
          annual_depreciation := pyRoundTo annual_depreciation 2
          total_depreciation := pyRoundTo total_depreciation2 2
          current_value := pyRoundTo current_value2 2
          depreciation_percent :=
            pyRoundTo (total_depreciation2 / purchase_price * 100) 1 }

theorem pyRoundTo_eq_self {q : ℚ} {d : ℕ} (h : (q * 10 ^ d).den = 1) :
    pyRoundTo q d = q := by
  unfold pyRoundTo
  have h2 : (((q * 10 ^ d).num : ℤ) : ℚ) = q * 10 ^ d := (Rat.den_eq_one_iff _).mp h
  rw [← h2, pyRound_intCast, h2]
  field_simp

theorem den_one_intCast_mul {x : ℚ} (z : ℤ) (h : x.den = 1) :
    ((z : ℚ) * x).den = 1 := by
  have h2 : ((x.num : ℤ) : ℚ) = x := (Rat.den_eq_one_iff _).mp h
  have : (z : ℚ) * x = ((z * x.num : ℤ) : ℚ) := by
    push_cast
    rw [h2]
  rw [this, Rat.den_intCast]

/-- C8 counterexample: `calculate_depreciation(0.01, 2020, 2024, 1.0)` hits
the 10% floor but, after the final rounding to 2 decimal places, returns
`current_value = 0`, not exactly `0.1 * purchase_price = 0.001`. -/
theorem calculate_depreciation_rounds_floor_value :
    (calculate_depreciation (1/100) 2020 2024 1).toOption.map
        (fun r => r.current_value) = some 0 ∧
    (0 : ℚ) ≠ (1/10) * (1/100) := by
  constructor
  · simp only [calculate_depreciation]
    norm_num [max_def, pyRoundTo, pyRound]
    exact ⟨_, rfl, rfl⟩
  · norm_num

/-- C8 (amended): when the linear depreciation exceeds 90% of the purchase
price, the pre-rounding value is clamped to `0.1 * purchase_price` and the
total to the remaining 90%; whenever `0.1 * purchase_price` needs at most
2 decimal digits (`(10 * purchase_price).den = 1`, e.g. any whole-number
price) the returned `current_value` equals exactly `0.1 * purchase_price`,
`total_depreciation` equals `purchase_price` minus that floor value, and
the two sum to `purchase_price`. -/
theorem calculate_depreciation_clamps_to_floor (p : ℚ) (py cy : ℤ) (rate : ℚ)
    (hp : 0 < p) (hy : py ≤ cy) (hr1 : 0 < rate) (hr2 : rate ≤ 1)
    (hexceed : (9/10) * p < p * rate * ((cy - py : ℤ) : ℚ))
    (hrep : (10 * p).den = 1) :
    ∃ r, calculate_depreciation p py cy rate = .ok r ∧
      r.current_value = (1/10) * p ∧
      r.total_depreciation = p - (1/10) * p ∧
      r.current_value + r.total_depreciation = p := by
  simp only [calculate_depreciation]
  rw [if_neg (by omega), if_neg (by linarith), if_neg (by push_neg; exact ⟨hr1, hr2⟩)]
  have hclamp : max 0 (p - p * rate * ((cy - py : ℤ) : ℚ)) < p * (1/10) := by
    rw [max_lt_iff]
    constructor <;> linarith
  rw [if_pos hclamp, if_pos hclamp]
  have hden1 : (p * (1/10) * 10 ^ 2).den = 1 := by
    have : p * (1/10) * 10 ^ 2 = (10 : ℤ) * p := by push_cast; ring
    rw [this]
    have : ((10 : ℤ) : ℚ) * p = 10 * p := by push_cast; ring
    rw [this]
    exact hrep
  have hden9 : ((p - p * (1/10)) * 10 ^ 2).den = 1 := by
    have : (p - p * (1/10)) * 10 ^ 2 = (9 : ℤ) * (10 * p) := by push_cast; ring
    rw [this]
    exact den_one_intCast_mul 9 hrep
  refine ⟨_, rfl, ?_, ?_, ?_⟩
  · rw [pyRoundTo_eq_self hden1]
    ring
  · rw [pyRoundTo_eq_self hden9]
    ring
  · rw [pyRoundTo_eq_self hden1, pyRoundTo_eq_self hden9]
    ring

/-- C8 witness: a 1000-unit car bought 24 years ago at 50% annual rate hits
the floor, and the returned values are exactly 100 and 900, summing to
1000. -/
theorem calculate_depreciation_clamps_to_floor_witness :
    ∃ r, calculate_depreciation 1000 2000 2024 (1/2) = .ok r ∧
      r.current_value = (1/10) * 1000 ∧
      r.total_depreciation = 1000 - (1/10) * 1000 ∧
      r.current_value + r.total_depreciation = 1000 :=
  calculate_depreciation_clamps_to_floor 1000 2000 2024 (1/2)
    (by norm_num) (by norm_num) (by norm_num) (by norm_num)
    (by push_cast; norm_num)
    (by norm_num)

/-! ## `src/core/calculator.py`: `calculate_loan_payment` -/

/-- The result dictionary of `calculate_loan_payment`: the common numeric
entries of both return branches, plus the `message` key that only the
no-loan branch carries (the echoed inputs of the normal branch are
omitted). -/
structure LoanResult where
  loan_amount : ℚ
  monthly_payment : ℚ
  total_payment : ℚ
  total_interest : ℚ
  message : Option String
deriving DecidableEq

/-- `calculate_loan_payment` from `src/core/calculator.py` (lines 368-414).
The division `...((1 + monthly_rate) ** loan_term_months - 1)` raises
`ZeroDivisionError` in Python when the denominator is zero; that is
modelled by the explicit zero test. -/
def calculate_loan_payment (car_price down_payment interest_rate : ℚ)
    (loan_term_months : ℕ) : Except String LoanResult :=
  let loan_amount := car_price - down_payment
  if loan_amount ≤ 0 then
    .ok { loan_amount := 0, monthly_payment := 0, total_payment := down_payment,
          total_interest := 0, message := some "loan not required" }
  else
    let monthly_rate := interest_rate / 100 / 12
    if (1 + monthly_rate) ^ loan_term_months - 1 = 0 then
      .error "ZeroDivisionError"
    else
      let monthly_payment :=
        loan_amount * (monthly_rate * (1 + monthly_rate) ^ loan_term_months) /
          ((1 + monthly_rate) ^ loan_term_months - 1)
      let total_payment := monthly_payment * (loan_term_months : ℚ)
      let total_interest := total_payment - loan_amount
      .ok { loan_amount := pyRoundTo loan_amount 2,
            monthly_payment := pyRoundTo monthly_payment 2,
            total_payment := pyRoundTo (total_payment + down_payment) 2,
            total_interest := pyRoundTo total_interest 2,
            message := none }

/-- C9: with a positive loan amount and `interest_rate = 0` the annuity
denominator `(1 + monthly_rate)^n - 1` is zero and the function raises
`ZeroDivisionError`; the zero-division guard only covers the
`loan_amount <= 0` branch, which returns a zero payment. -/
theorem loan_payment_zero_rate_raises (cp dp : ℚ) (n : ℕ) :
    (dp < cp → calculate_loan_payment cp dp 0 n = .error "ZeroDivisionError") ∧
    (cp ≤ dp → ∃ r, calculate_loan_payment cp dp 0 n = .ok r ∧
      r.monthly_payment = 0 ∧ r.total_payment = dp) := by
  constructor
  · intro h
    unfold calculate_loan_payment
    rw [if_neg (by simp; linarith)]
    rw [if_pos (by norm_num)]
  · intro h
    unfold calculate_loan_payment
    rw [if_pos (by simp; linarith)]
    exact ⟨_, rfl, rfl, rfl⟩

/-- C9 witness: an 800000-unit loan at 0% rate over 60 months raises
`ZeroDivisionError`, while a fully covered purchase returns a zero
payment. -/
theorem loan_payment_zero_rate_raises_witness :
    calculate_loan_payment 1000000 200000 0 60 = .error "ZeroDivisionError" ∧
    (∃ r, calculate_loan_payment 100 150 0 60 = .ok r ∧
      r.monthly_payment = 0 ∧ r.total_payment = 150) :=
  ⟨(loan_payment_zero_rate_raises 1000000 200000 60).1 (by norm_num),
   (loan_payment_zero_rate_raises 100 150 60).2 (by norm_num)⟩

/-! ## `src/utils/statistics.py`: `StatisticsCalculator` -/

/-- Python `sorted(values)` for a numeric list: the unique ascending
stable sort, realized by insertion sort. -/
def pySorted (values : List ℚ) : List ℚ := values.insertionSort (· ≤ ·)

/-- `StatisticsCalculator.min_value`: `min(values)`, with `0.0` for an
empty list. -/
def min_value (values : List ℚ) : ℚ :=
  match values with
  | [] => 0
  | x :: xs => xs.foldl min x

/-- `StatisticsCalculator.max_value`: `max(values)`, with `0.0` for an
empty list. -/
def max_value (values : List ℚ) : ℚ :=
  match values with
  | [] => 0
  | x :: xs => xs.foldl max x

/-- `StatisticsCalculator.median`: `statistics.median(values)` with `0.0`
for an empty list; the middle element of the sorted list for odd length,
the mean of the two middle elements for even length. -/
def median (values : List ℚ) : ℚ :=
  if values = [] then 0
  else
    let s := pySorted values
    let n := s.length
    if n % 2 = 1 then s.getD (n / 2) 0
    else (s.getD (n / 2 - 1) 0 + s.getD (n / 2) 0) / 2

/-- Python `int(q)`: truncation toward zero, which on `ℚ` is
`num / den` with `ℤ` T-division. -/
def pyInt (q : ℚ) : ℤ := q.num / q.den

/-- `StatisticsCalculator.percentile` (lines 143-163 of
`src/utils/statistics.py`): value at index `(n-1)*percent/100` of the
sorted series, linearly interpolated between the two bracketing order
statistics when the index is fractional; `index.is_integer()` is the test
`index.den = 1`. -/
def percentile (values : List ℚ) (percent : ℚ) : ℚ :=
  if values = [] then 0
  else
    let s := pySorted values
    let index : ℚ := ((s.length : ℚ) - 1) * percent / 100
    if index.den = 1 then s.getD index.num.toNat 0
    else
      let i := pyInt index
      s.getD i.toNat 0 + (s.getD (i.toNat + 1) 0 - s.getD i.toNat 0) * (index - (i : ℚ))

theorem foldl_min_mem : ∀ (xs : List ℚ) (x : ℚ), xs.foldl min x ∈ x :: xs := by
  intro xs
  induction xs with
  | nil => intro x; simp
  | cons y ys ih =>
    intro x
    simp only [List.foldl_cons]
    rcases List.mem_cons.mp (ih (min x y)) with h1 | h1
    · rw [h1]
      rcases min_choice x y with hc | hc <;> rw [hc]
      · exact List.mem_cons_self _ _
      · exact List.mem_cons_of_mem _ (List.mem_cons_self _ _)
    · exact List.mem_cons_of_mem _ (List.mem_cons_of_mem _ h1)

theorem foldl_min_le : ∀ (xs : List ℚ) (x : ℚ), ∀ y ∈ x :: xs, xs.foldl min x ≤ y := by
  intro xs
  induction xs with
  | nil =>
    intro x y hy
    simp at hy
    simp [hy]
  | cons z zs ih =>
    intro x y hy
    simp only [List.foldl_cons]
    have hbase : zs.foldl min (min x z) ≤ min x z := ih _ _ (List.mem_cons_self _ _)
    rcases List.mem_cons.mp hy with h1 | h1
    · rw [h1]
      exact le_trans hbase (min_le_left _ _)
    · rcases List.mem_cons.mp h1 with h2 | h2
      · rw [h2]
        exact le_trans hbase (min_le_right _ _)
      · exact ih (min x z) y (List.mem_cons_of_mem _ h2)

theorem foldl_max_mem : ∀ (xs : List ℚ) (x : ℚ), xs.foldl max x ∈ x :: xs := by
  intro xs
  induction xs with
  | nil => intro x; simp
  | cons y ys ih =>
    intro x
    simp only [List.foldl_cons]
    rcases List.mem_cons.mp (ih (max x y)) with h1 | h1
    · rw [h1]
      rcases max_choice x y with hc | hc <;> rw [hc]
      · exact List.mem_cons_self _ _
      · exact List.mem_cons_of_mem _ (List.mem_cons_self _ _)
    · exact List.mem_cons_of_mem _ (List.mem_cons_of_mem _ h1)

theorem le_foldl_max : ∀ (xs : List ℚ) (x : ℚ), ∀ y ∈ x :: xs, y ≤ xs.foldl max x := by
  intro xs
  induction xs with
  | nil =>
    intro x y hy
    simp at hy
    simp [hy]
  | cons z zs ih =>
    intro x y hy
    simp only [List.foldl_cons]
    have hbase : max x z ≤ zs.foldl max (max x z) := ih _ _ (List.mem_cons_self _ _)
    rcases List.mem_cons.mp hy with h1 | h1
    · rw [h1]
      exact le_trans (le_max_left _ _) hbase
    · rcases List.mem_cons.mp h1 with h2 | h2
      · rw [h2]
        exact le_trans (le_max_right _ _) hbase
      · exact ih (max x z) y (List.mem_cons_of_mem _ h2)

theorem min_value_mem {l : List ℚ} (h : l ≠ []) : min_value l ∈ l := by
  match l, h with
  | x :: xs, _ => exact foldl_min_mem xs x

theorem min_value_le {l : List ℚ} (h : l ≠ []) : ∀ y ∈ l, min_value l ≤ y := by
  match l, h with
  | x :: xs, _ => exact foldl_min_le xs x

theorem max_value_mem {l : List ℚ} (h : l ≠ []) : max_value l ∈ l := by
  match l, h with
  | x :: xs, _ => exact foldl_max_mem xs x

theorem le_max_value {l : List ℚ} (h : l ≠ []) : ∀ y ∈ l, y ≤ max_value l := by
  match l, h with
  | x :: xs, _ => exact le_foldl_max xs x

theorem pySorted_sorted (l : List ℚ) : (pySorted l).Sorted (· ≤ ·) :=
  List.sorted_insertionSort _ l

theorem pySorted_perm (l : List ℚ) : (pySorted l).Perm l :=
  List.perm_insertionSort _ l

theorem pySorted_length (l : List ℚ) : (pySorted l).length = l.length :=
  (pySorted_perm l).length_eq

theorem pySorted_ne_nil {l : List ℚ} (h : l ≠ []) : pySorted l ≠ [] := by
  intro hc
  apply h
  have := (pySorted_perm l).length_eq
  rw [hc] at this
  exact List.length_eq_zero.mp this.symm

theorem pySorted_headD_eq_min {l : List ℚ} (h : l ≠ []) :
    (pySorted l).getD 0 0 = min_value l := by
  obtain ⟨a, t, hs⟩ : ∃ a t, pySorted l = a :: t := by
    cases hps : pySorted l with
    | nil => exact absurd hps (pySorted_ne_nil h)
    | cons a t => exact ⟨a, t, rfl⟩
  have hmem : ∀ y ∈ l, a ≤ y := by
    intro y hy
    have hy2 : y ∈ pySorted l := (pySorted_perm l).mem_iff.mpr hy
    rw [hs] at hy2
    rcases List.mem_cons.mp hy2 with h1 | h1
    · exact le_of_eq h1.symm
    · exact List.rel_of_sorted_cons (hs ▸ pySorted_sorted l) y h1
  have hamem : a ∈ l := (pySorted_perm l).mem_iff.mp (hs ▸ List.mem_cons_self a t)
  rw [hs]
  exact le_antisymm (hmem _ (min_value_mem h)) (min_value_le h a hamem)

theorem sorted_getD_last_spec : ∀ (s : List ℚ), s.Sorted (· ≤ ·) → s ≠ [] →
    (∀ y ∈ s, y ≤ s.getD (s.length - 1) 0) ∧ s.getD (s.length - 1) 0 ∈ s := by
  intro s
  induction s with
  | nil => intro _ h; exact absurd rfl h
  | cons a rest ih =>
    intro hsort _
    cases rest with
    | nil =>
      refine ⟨?_, by simp⟩
      intro y hy
      simp at hy
      simp [hy]
    | cons b t =>
      have hlen : (a :: b :: t).length - 1 = (b :: t).length := by simp
      have hstep : (a :: b :: t).getD ((b :: t).length) 0 =
          (b :: t).getD ((b :: t).length - 1) 0 := by
        have : (b :: t).length = ((b :: t).length - 1) + 1 := by simp
        rw [this]
        rfl
      obtain ⟨ihle, ihmem⟩ := ih hsort.of_cons (by simp)
      rw [hlen, hstep]
      constructor
      · intro y hy
        rcases List.mem_cons.mp hy with h1 | h1
        · subst h1
          exact le_trans (List.rel_of_sorted_cons hsort _ ihmem) (le_refl _)
        · exact ihle y h1
      · exact List.mem_cons_of_mem _ ihmem

theorem pySorted_getD_last_eq_max {l : List ℚ} (h : l ≠ []) :
    (pySorted l).getD ((pySorted l).length - 1) 0 = max_value l := by
  obtain ⟨hle, hmem⟩ :=
    sorted_getD_last_spec (pySorted l) (pySorted_sorted l) (pySorted_ne_nil h)
  have hmem2 : (pySorted l).getD ((pySorted l).length - 1) 0 ∈ l :=
    (pySorted_perm l).mem_iff.mp hmem
  have hmax : max_value l ∈ pySorted l :=
    (pySorted_perm l).mem_iff.mpr (max_value_mem h)
  exact le_antisymm (le_max_value h _ hmem2) (hle _ hmax)

theorem percentile_zero {values : List ℚ} (h : values ≠ []) :
    percentile values 0 = min_value values := by
  simp only [percentile]
  rw [if_neg h]
  have hidx : (((pySorted values).length : ℚ) - 1) * 0 / 100 = 0 := by ring
  rw [hidx]
  rw [if_pos (show ((0 : ℚ)).den = 1 by norm_num)]
  rw [show ((0 : ℚ)).num.toNat = 0 by norm_num]
  exact pySorted_headD_eq_min h

theorem percentile_hundred {values : List ℚ} (h : values ≠ []) :
    percentile values 100 = max_value values := by
  simp only [percentile]
  rw [if_neg h]
  have hn1 : 1 ≤ (pySorted values).length := by
    have := pySorted_ne_nil h
    cases hps : pySorted values with
    | nil => exact absurd hps this
    | cons a t => simp [hps]
  have hidx : (((pySorted values).length : ℚ) - 1) * 100 / 100 =
      ((((pySorted values).length : ℤ) - 1 : ℤ) : ℚ) := by
    push_cast
    ring
  rw [hidx, Rat.den_intCast, Rat.num_intCast]
  rw [if_pos rfl]
  have htn : (((pySorted values).length : ℤ) - 1).toNat = (pySorted values).length - 1 := by
    omega
  rw [htn]
  exact pySorted_getD_last_eq_max h

theorem percentile_fifty {values : List ℚ} (h : values ≠ []) :
    percentile values 50 = median values := by
  simp only [percentile, median]
  rw [if_neg h, if_neg h]
  have hn1 : 1 ≤ (pySorted values).length := by
    have := pySorted_ne_nil h
    cases hps : pySorted values with
    | nil => exact absurd hps this
    | cons a t => simp [hps]
  set s := pySorted values with hs
  set n := s.length with hn
  rcases Nat.even_or_odd n with he | ho
  · -- even length: interpolate halfway between the two middle elements
    obtain ⟨m, hm⟩ := he
    have hm1 : 1 ≤ m := by omega
    have hmod : ¬ n % 2 = 1 := by omega
    set q : ℚ := ((n : ℚ) - 1) * 50 / 100 with hq
    have hq2 : q * 2 = ((2 * (m : ℤ) - 1 : ℤ) : ℚ) := by
      rw [hq, hm]
      push_cast
      ring
    have hqdiv : q = ((2 * (m : ℤ) - 1 : ℤ) : ℚ) / ((2 : ℤ) : ℚ) := by
      rw [← hq2]
      push_cast
      ring
    have hqmk : q = Rat.divInt (2 * (m : ℤ) - 1) 2 := by
      rw [Rat.divInt_eq_div]
      exact_mod_cast hqdiv
    have hdvd : ((q.den : ℤ)) ∣ 2 := by
      rw [hqmk]
      exact Rat.den_dvd _ _
    have hdvdn : q.den ∣ 2 := by exact_mod_cast hdvd
    have hdenne : q.den ≠ 1 := by
      intro hone
      have hnum : ((q.num : ℤ) : ℚ) = q := (Rat.den_eq_one_iff q).mp hone
      have hcast : ((q.num : ℤ) : ℚ) * 2 = ((2 * (m : ℤ) - 1 : ℤ) : ℚ) := by
        rw [hnum]
        exact hq2
      have h2 : q.num * 2 = 2 * (m : ℤ) - 1 := by exact_mod_cast hcast
      omega
    have hden2 : q.den = 2 := by
      have hle2 : q.den ≤ 2 := Nat.le_of_dvd (by norm_num) hdvdn
      have hpos : 0 < q.den := q.pos
      interval_cases hd : q.den <;> omega
    have hnum2 : q.num = 2 * (m : ℤ) - 1 := by
      have hrat : ((q.num : ℤ) : ℚ) / ((q.den : ℕ) : ℚ) = q := Rat.num_div_den q
      rw [hden2] at hrat
      have : ((q.num : ℤ) : ℚ) = q * 2 := by
        field_simp at hrat
        linarith [hrat]
      rw [hq2] at this
      exact_mod_cast this
    rw [if_neg (by rw [hden2]; omega), if_neg hmod]
    have hpyInt : pyInt q = (m : ℤ) - 1 := by
      unfold pyInt
      rw [hnum2, hden2]
      omega
    rw [hpyInt]
    have htn : ((m : ℤ) - 1).toNat = m - 1 := by omega
    rw [htn]
    have hfrac : q - (((m : ℤ) - 1 : ℤ) : ℚ) = 1 / 2 := by
      have : (q * 2 - ((m : ℤ) - 1 : ℤ) * 2 : ℚ) = 1 := by
        rw [hq2]
        push_cast
        ring
      linarith [this]
    rw [hfrac]
    have hsucc : m - 1 + 1 = m := by omega
    rw [hsucc]
    have hdiv2 : n / 2 = m := by omega
    rw [hdiv2]
    ring
  · -- odd length: the index is integral and hits the middle element
    obtain ⟨m, hm⟩ := ho
    have hmod : n % 2 = 1 := by omega
    have hidx : ((n : ℚ) - 1) * 50 / 100 = ((m : ℤ) : ℚ) := by
      rw [hm]
      push_cast
      ring
    rw [hidx, Rat.den_intCast, Rat.num_intCast]
    rw [if_pos rfl, if_pos hmod]
    have htn : ((m : ℤ)).toNat = m := by omega
    rw [htn]
    have hdiv2 : n / 2 = m := by omega
    rw [hdiv2]

/-- C7: on any non-empty series, `percentile` at 0 returns the minimum, at
100 the maximum, and at 50 the median, for both even and odd lengths. -/
theorem percentile_endpoints_and_median (values : List ℚ) (h : values ≠ []) :
    percentile values 0 = min_value values ∧
    percentile values 100 = max_value values ∧
    percentile values 50 = median values :=
  ⟨percentile_zero h, percentile_hundred h, percentile_fifty h⟩

/-- C7 witness: the odd-length series `[3, 1, 2]` and the even-length
series `[4, 1, 3, 2]` both satisfy the percentile endpoints and median
property. -/
theorem percentile_endpoints_and_median_witness :
    (percentile [3, 1, 2] 0 = min_value [3, 1, 2] ∧
     percentile [3, 1, 2] 100 = max_value [3, 1, 2] ∧
     percentile [3, 1, 2] 50 = median [3, 1, 2]) ∧
    (percentile [4, 1, 3, 2] 0 = min_value [4, 1, 3, 2] ∧
     percentile [4, 1, 3, 2] 100 = max_value [4, 1, 3, 2] ∧
     percentile [4, 1, 3, 2] 50 = median [4, 1, 3, 2]) :=
  ⟨percentile_endpoints_and_median [3, 1, 2] (by simp),
   percentile_endpoints_and_median [4, 1, 3, 2] (by simp)⟩

/-! ## `src/utils/statistics.py`: `TrendAnalyzer` -/

/-- `TrendAnalyzer.__init__`: the `(date, value)` series is sorted by date
(Python `sorted` with `key=lambda x: x[0]` is a stable ascending sort;
dates are modelled as integer day numbers). -/
def sortData (data : List (ℤ × ℚ)) : List (ℤ × ℚ) :=
  data.insertionSort (fun a b => a.1 ≤ b.1)

/-- `self.dates` of a `TrendAnalyzer`. -/
def analyzerDates (data : List (ℤ × ℚ)) : List ℤ := (sortData data).map Prod.fst

/-- `self.values` of a `TrendAnalyzer`. -/
def analyzerValues (data : List (ℤ × ℚ)) : List ℚ := (sortData data).map Prod.snd

/-- The result dictionary of `TrendAnalyzer.linear_trend`.  The two
degenerate early returns carry no `trend` key at all, modelled as
`trend = none`. -/
structure TrendResult where
  slope : ℚ
  intercept : ℚ
  r_squared : ℚ
  trend : Option String
deriving DecidableEq

/-- `TrendAnalyzer.linear_trend` (lines 232-273 of
`src/utils/statistics.py`): ordinary least squares of value against days
since the first date. -/
def linear_trend (data : List (ℤ × ℚ)) : TrendResult :=
  if data.length < 2 then ⟨0, 0, 0, none⟩
  else
    let dates := analyzerDates data
    let start := dates.headD 0
    let x : List ℚ := dates.map (fun d => ((d - start : ℤ) : ℚ))
    let y := analyzerValues data
    let n : ℚ := (x.length : ℚ)
    let sum_x := x.sum
    let sum_y := y.sum
    let sum_xy := ((x.zip y).map (fun p => p.1 * p.2)).sum
    let sum_x2 := (x.map (fun v => v ^ 2)).sum
    let denominator := n * sum_x2 - sum_x ^ 2
    if denominator = 0 then ⟨0, 0, 0, none⟩
    else
      let slope := (n * sum_xy - sum_x * sum_y) / denominator
      let intercept := (sum_y - slope * sum_x) / n
      let y_mean := sum_y / n
      let ss_tot := (y.map (fun yi => (yi - y_mean) ^ 2)).sum
      let ss_reg := (x.map (fun xi => (slope * xi + intercept - y_mean) ^ 2)).sum
      let r_squared := if ss_tot > 0 then ss_reg / ss_tot else 0
      ⟨slope, intercept, r_squared,
        some (if slope > 0 then "rising" else if slope < 0 then "falling" else "stable")⟩

/-- C5: on degenerate input (fewer than 2 points, or all points dated the
same day, which makes the x-variance zero) `linear_trend` returns
slope 0, intercept 0, r-squared 0 and no trend label, instead of dividing
by zero. -/
theorem linear_trend_degenerate (data : List (ℤ × ℚ))
    (h : data.length < 2 ∨ ∀ p ∈ data, ∀ q ∈ data, p.1 = q.1) :
    linear_trend data = ⟨0, 0, 0, none⟩ := by
  rcases h with hlen | hsame
  · simp only [linear_trend]
    rw [if_pos hlen]
  · by_cases hlen : data.length < 2
    · simp only [linear_trend]
      rw [if_pos hlen]
    · simp only [linear_trend]
      rw [if_neg hlen]
      have hperm : (sortData data).Perm data := List.perm_insertionSort _ data
      have hx0 : ∀ v ∈ (analyzerDates data).map
          (fun d => ((d - (analyzerDates data).headD 0 : ℤ) : ℚ)), v = 0 := by
        intro v hv
        obtain ⟨d, hd, hdv⟩ := List.mem_map.mp hv
        obtain ⟨p, hp, hpd⟩ := List.mem_map.mp hd
        have hlen2 : sortData data ≠ [] := by
          intro hc
          apply hlen
          rw [← hperm.length_eq, hc]
          simp
        obtain ⟨p0, t, hps⟩ : ∃ p0 t, sortData data = p0 :: t := by
          cases hps : sortData data with
          | nil => exact absurd hps hlen2
          | cons p0 t => exact ⟨p0, t, rfl⟩
        have hhead : (analyzerDates data).headD 0 = p0.1 := by
          unfold analyzerDates
          rw [hps]
          rfl
        have hp0mem : p0 ∈ data := hperm.mem_iff.mp (hps ▸ List.mem_cons_self p0 t)
        have hpmem : p ∈ data := hperm.mem_iff.mp hp
        have : p.1 = p0.1 := hsame p hpmem p0 hp0mem
        rw [← hdv, ← hpd, hhead, this]
        simp
      have hsx : ((analyzerDates data).map
          (fun d => ((d - (analyzerDates data).headD 0 : ℤ) : ℚ))).sum = 0 :=
        List.sum_eq_zero hx0
      have hsx2 : (((analyzerDates data).map
          (fun d => ((d - (analyzerDates data).headD 0 : ℤ) : ℚ))).map
            (fun v => v ^ 2)).sum = 0 := by
        apply List.sum_eq_zero
        intro v hv
        obtain ⟨w, hw, hwv⟩ := List.mem_map.mp hv
        rw [← hwv, hx0 w hw]
        ring
      rw [if_pos (by rw [hsx, hsx2]; ring)]

/-- C5 witness: two measurements on the same day give the all-zero,
label-free trend result. -/
theorem linear_trend_degenerate_witness :
    linear_trend [(5, 3), (5, 7)] = ⟨0, 0, 0, none⟩ :=
  linear_trend_degenerate [(5, 3), (5, 7)]
    (Or.inr (by
      intro p hp q hq
      fin_cases hp <;> fin_cases hq <;> rfl))

/-- The result dictionary of `TrendAnalyzer.growth_rate`.  `none` in the
two growth fields models the Python float `inf` (first value zero, last
positive); `none` in `first_value`/`last_value` models the short-input
dictionary that carries neither key. -/
structure GrowthResult where
  total_growth : Option ℚ
  average_growth : Option ℚ
  first_value : Option ℚ
  last_value : Option ℚ
deriving DecidableEq

/-- The per-step generator inside `growth_rate`: the consecutive
percentage changes `(v[i] - v[i-1]) / v[i-1] * 100` for the steps whose
previous value is nonzero. -/
def stepChanges : List ℚ → List ℚ
  | a :: b :: rest =>
      (if a ≠ 0 then [(b - a) / a * 100] else []) ++ stepChanges (b :: rest)
  | _ => []

/-- `TrendAnalyzer.growth_rate` (lines 295-328 of
`src/utils/statistics.py`). -/
def growth_rate (data : List (ℤ × ℚ)) : GrowthResult :=
  let values := analyzerValues data
  if values.length < 2 then ⟨some 0, some 0, none, none⟩
  else
    let first := values.headD 0
    let last := values.getLastD 0
    let total_growth : Option ℚ :=
      if first = 0 then (if last > 0 then none else some 0)
      else some ((last - first) / first * 100)
    let average_growth : Option ℚ :=
      if 2 < values.length then
        some ((stepChanges values).sum / ((values.length : ℚ) - 1))
      else total_growth
    ⟨total_growth, average_growth, some first, some last⟩

/-- The specification reading of the average growth: the mean of the
included step changes (sum divided by the number of included steps). -/
def averageGrowthSpec (values : List ℚ) : ℚ :=
  (stepChanges values).sum / ((stepChanges values).length : ℚ)

/-- The step list written independently of the source recursion: zip each
value with its successor and keep the percentage changes of the steps
whose previous value is nonzero. -/
def specSteps (values : List ℚ) : List ℚ :=
  (values.zip values.tail).filterMap
    (fun p => if p.1 = 0 then none else some ((p.2 - p.1) / p.1 * 100))

theorem stepChanges_eq_specSteps (l : List ℚ) : stepChanges l = specSteps l := by
  induction l with
  | nil => rfl
  | cons a t ih =>
    cases t with
    | nil => rfl
    | cons b r =>
      by_cases ha : a = 0 <;>
        simp [stepChanges, specSteps, ha, List.zip_cons_cons, List.filterMap_cons] at ih ⊢ <;>
        exact ih

/-- C4 counterexample: on the series `[(0,0), (1,1), (2,2)]` the code
returns `average_growth = 50` (the sum of the one included step change,
100, divided by `len - 1 = 2` steps), while the mean of the included step
changes is 100. -/
theorem growth_rate_average_not_mean_of_included :
    (growth_rate [(0, 0), (1, 1), (2, 2)]).average_growth = some 50 ∧
    averageGrowthSpec (analyzerValues [(0, 0), (1, 1), (2, 2)]) = 100 ∧
    (growth_rate [(0, 0), (1, 1), (2, 2)]).average_growth ≠
      some (averageGrowthSpec (analyzerValues [(0, 0), (1, 1), (2, 2)])) := by
  norm_num [growth_rate, analyzerValues, sortData, List.insertionSort,
    List.orderedInsert, stepChanges, averageGrowthSpec]

/-- C4 (amended): `total_growth` is `(last-first)/first*100` with the
`first = 0` guard returning infinity (modelled `none`) if `last > 0` and
`0` otherwise; for more than 2 points `average_growth` is the SUM of the
step percentage changes over the steps with nonzero previous value,
divided by the total step count `n - 1` (not by the number of included
steps); for exactly 2 points it equals `total_growth`. -/
theorem growth_rate_characterization (data : List (ℤ × ℚ))
    (h2 : 2 ≤ (analyzerValues data).length) :
    ((analyzerValues data).headD 0 = 0 → 0 < (analyzerValues data).getLastD 0 →
        (growth_rate data).total_growth = none) ∧
    ((analyzerValues data).headD 0 = 0 → ¬ 0 < (analyzerValues data).getLastD 0 →
        (growth_rate data).total_growth = some 0) ∧
    ((analyzerValues data).headD 0 ≠ 0 →
        (growth_rate data).total_growth =
          some (((analyzerValues data).getLastD 0 - (analyzerValues data).headD 0) /
            (analyzerValues data).headD 0 * 100)) ∧
    (2 < (analyzerValues data).length →
        (growth_rate data).average_growth =
          some ((specSteps (analyzerValues data)).sum /
            (((analyzerValues data).length : ℚ) - 1))) ∧
    ((analyzerValues data).length = 2 →
        (growth_rate data).average_growth = (growth_rate data).total_growth) := by
  simp only [growth_rate]
  rw [if_neg (by omega)]
  refine ⟨?_, ?_, ?_, ?_, ?_⟩
  · intro hf hl
    simp only [if_pos hf, if_pos hl]
  · intro hf hl
    simp only [if_pos hf, if_neg hl]
  · intro hf
    simp only [if_neg hf]
  · intro hgt
    simp only [if_pos hgt, stepChanges_eq_specSteps]
  · intro heq
    simp only [if_neg (by omega : ¬ 2 < (analyzerValues data).length)]

/-- C4 witness: the rising series `[(0,1), (1,2), (2,4)]` instantiates the
amended growth-rate characterization. -/
theorem growth_rate_characterization_witness :
    ((analyzerValues [((0:ℤ), (1:ℚ)), (1, 2), (2, 4)]).headD 0 = 0 →
        0 < (analyzerValues [((0:ℤ), (1:ℚ)), (1, 2), (2, 4)]).getLastD 0 →
        (growth_rate [((0:ℤ), (1:ℚ)), (1, 2), (2, 4)]).total_growth = none) ∧
    ((analyzerValues [((0:ℤ), (1:ℚ)), (1, 2), (2, 4)]).headD 0 = 0 →
        ¬ 0 < (analyzerValues [((0:ℤ), (1:ℚ)), (1, 2), (2, 4)]).getLastD 0 →
        (growth_rate [((0:ℤ), (1:ℚ)), (1, 2), (2, 4)]).total_growth = some 0) ∧
    ((analyzerValues [((0:ℤ), (1:ℚ)), (1, 2), (2, 4)]).headD 0 ≠ 0 →
        (growth_rate [((0:ℤ), (1:ℚ)), (1, 2), (2, 4)]).total_growth =
          some (((analyzerValues [((0:ℤ), (1:ℚ)), (1, 2), (2, 4)]).getLastD 0 -
              (analyzerValues [((0:ℤ), (1:ℚ)), (1, 2), (2, 4)]).headD 0) /
            (analyzerValues [((0:ℤ), (1:ℚ)), (1, 2), (2, 4)]).headD 0 * 100)) ∧
    (2 < (analyzerValues [((0:ℤ), (1:ℚ)), (1, 2), (2, 4)]).length →
        (growth_rate [((0:ℤ), (1:ℚ)), (1, 2), (2, 4)]).average_growth =
          some ((specSteps (analyzerValues [((0:ℤ), (1:ℚ)), (1, 2), (2, 4)])).sum /
            (((analyzerValues [((0:ℤ), (1:ℚ)), (1, 2), (2, 4)]).length : ℚ) - 1))) ∧
    ((analyzerValues [((0:ℤ), (1:ℚ)), (1, 2), (2, 4)]).length = 2 →
        (growth_rate [((0:ℤ), (1:ℚ)), (1, 2), (2, 4)]).average_growth =
          (growth_rate [((0:ℤ), (1:ℚ)), (1, 2), (2, 4)]).total_growth) :=
  growth_rate_characterization [((0:ℤ), (1:ℚ)), (1, 2), (2, 4)]
    (by norm_num [analyzerValues, sortData, List.insertionSort, List.orderedInsert])

/-! ## `src/models/car.py` and `src/utils/statistics.py`: `CarStatistics` -/

/-- `CarStatus` from `src/models/car.py`; `value` is the display string of
the enum member. -/
inductive CarStatus where
  | available
  | sold
  | reserved
  | inTransit
  | underRepair
  | archived
deriving DecidableEq

/-- The `.value` attribute of a `CarStatus` member. -/
def CarStatus.value : CarStatus → String
  | .available => "В наличии"
  | .sold => "Продано"
  | .reserved => "Забронировано"
  | .inTransit => "В пути"
  | .underRepair => "В ремонте"
  | .archived => "В архиве"

/-- The `Car` dataclass fields consumed by the statistics engine. -/
structure Car where
  brand : String
  model : String
  year : ℤ
  price : ℚ
  mileage : ℚ
  color : String
  condition : String
  status : CarStatus
deriving DecidableEq

/-- `format_condition(condition, language="ru")` from
`src/utils/formatter.py`: display-label lookup with the raw code as
fallback. -/
def format_condition (condition : String) : String :=
  (([("excellent", "Отличное"), ("good", "Хорошее"), ("average", "Среднее"),
     ("poor", "Плохое"), ("damaged", "Поврежден")] : List (String × String)).lookup
    condition).getD condition

/-- The state built by `CarStatistics.__init__` (lines 374-394 of
`src/utils/statistics.py`); `current_year` stands for
`datetime.now().year` used by `Car.get_age`. -/
structure CarStatisticsState where
  cars : List Car
  prices : List ℚ
  years : List ℤ
  mileages : List ℚ
  ages : List ℤ
deriving DecidableEq

/-- `CarStatistics.__init__`: raises `StatisticsError` on an empty list,
then builds the numeric series; prices and mileages keep only the
strictly positive entries. -/
def mkCarStatistics (current_year : ℤ) (cars : List Car) :
    Except String CarStatisticsState :=
  if cars = [] then .error "StatisticsError: empty car list"
  else .ok { cars := cars
             prices := (cars.filter (fun c => 0 < c.price)).map (fun c => c.price)
             years := cars.map (fun c => c.year)
             mileages := (cars.filter (fun c => 0 < c.mileage)).map (fun c => c.mileage)
             ages := cars.map (fun c => current_year - c.year) }

/-- Python dict lookup `d.get(k)` on an association list. -/
def dictGet {α : Type} [DecidableEq α] : List (α × ℕ) → α → Option ℕ
  | [], _ => none
  | (a, b) :: t, k => if a = k then some b else dictGet t k

/-- Python dict assignment `d[k] = v`: replace in place the value at an
existing key, else append the new entry (dicts preserve insertion
order). -/
def dictSet {α : Type} [DecidableEq α] : List (α × ℕ) → α → ℕ → List (α × ℕ)
  | [], k, v => [(k, v)]
  | (a, b) :: t, k, v => if a = k then (a, v) :: t else (a, b) :: dictSet t k v

/-- Python `d[k] = d.get(k, 0) + 1`. -/
def dictIncr {α : Type} [DecidableEq α] (d : List (α × ℕ)) (k : α) : List (α × ℕ) :=
  dictSet d k ((dictGet d k).getD 0 + 1)

/-- The sum of the counts of a distribution dictionary. -/
def dictValuesSum {α : Type} (d : List (α × ℕ)) : ℕ := (d.map (fun p => p.2)).sum

/-- The `for`-loop pattern shared by the categorical distribution
builders: count occurrences of each key. -/
def countBy {α κ : Type} [DecidableEq κ] (key : α → κ) (xs : List α) : List (κ × ℕ) :=
  xs.foldl (fun d x => dictIncr d (key x)) []

/-- `CarStatistics.get_year_distribution`: counts by year, then
`dict(sorted(...))` ascending by year. -/
def get_year_distribution (st : CarStatisticsState) : List (ℤ × ℕ) :=
  (countBy (fun c => c.year) st.cars).insertionSort (fun a b => a.1 ≤ b.1)

/-- `CarStatistics.get_brand_distribution`: counts by brand, sorted
descending by count. -/
def get_brand_distribution (st : CarStatisticsState) : List (String × ℕ) :=
  (countBy (fun c => c.brand) st.cars).insertionSort (fun a b => b.2 ≤ a.2)

/-- `CarStatistics.get_status_distribution`: counts by `status.value`. -/
def get_status_distribution (st : CarStatisticsState) : List (String × ℕ) :=
  countBy (fun c => c.status.value) st.cars

/-- `CarStatistics.get_color_distribution`: counts by color, sorted
descending by count. -/
def get_color_distribution (st : CarStatisticsState) : List (String × ℕ) :=
  (countBy (fun c => c.color) st.cars).insertionSort (fun a b => b.2 ≤ a.2)

/-- `CarStatistics.get_condition_distribution`: counts by the
display-formatted condition label. -/
def get_condition_distribution (st : CarStatisticsState) : List (String × ℕ) :=
  countBy (fun c => format_condition c.condition) st.cars

/-- The lower bound `min_price + i * bin_size` of price bucket `i`. -/
def bucketLower (min_price bin_size : ℚ) (i : ℕ) : ℚ := min_price + (i : ℚ) * bin_size

/-- The upper bound of price bucket `i`; the last bucket runs to
`max_price + 1` so that the maximum price is included. -/
def bucketUpper (min_price max_price bin_size : ℚ) (bins i : ℕ) : ℚ :=
  if i = bins - 1 then max_price + 1 else bucketLower min_price bin_size i + bin_size

/-- The dictionary key of bucket `i`.  The Python label is the f-string
`f"{lower:,.0f} - {upper:,.0f} ₽"`, which displays both endpoints rounded
to whole numbers; two bucket labels collide exactly when both rounded
endpoints agree, so the label is modelled as the pair of rounded
endpoints. -/
def bucketKey (min_price max_price bin_size : ℚ) (bins i : ℕ) : ℤ × ℤ :=
  (pyRound (bucketLower min_price bin_size i),
   pyRound (bucketUpper min_price max_price bin_size bins i))

/-- `CarStatistics.get_price_distribution` (lines 490-518 of
`src/utils/statistics.py`).  With `bins = 0` and two distinct prices the
Python expression `(max_price - min_price) / bins` raises
`ZeroDivisionError`, modelled by the explicit test. -/
def get_price_distribution (st : CarStatisticsState) (bins : ℕ) :
    Except String (List ((ℤ × ℤ) × ℕ)) :=
  if st.prices = [] then .ok []
  else
    let min_price := min_value st.prices
    let max_price := max_value st.prices
    if max_price > min_price ∧ bins = 0 then .error "ZeroDivisionError"
    else
      let bin_size :=
        if max_price > min_price then (max_price - min_price) / (bins : ℚ) else 1
      .ok ((List.range bins).foldl
        (fun d i =>
          dictSet d (bucketKey min_price max_price bin_size bins i)
            (st.prices.countP
              (fun p => decide (bucketLower min_price bin_size i ≤ p ∧
                p < bucketUpper min_price max_price bin_size bins i))))
        [])

/-- `StatisticsCalculator.mean`: `sum/len`, `0.0` for an empty list. -/
def mean (values : List ℚ) : ℚ :=
  if values = [] then 0 else values.sum / (values.length : ℚ)

/-- The rational-valued entries of the dictionary returned by
`CarStatistics.get_mileage_statistics`; `std_dev`, a float square root
and irrational in general, is not modelled.  `none` is the empty `{}`
returned when no positive mileage exists. -/
structure MileageStats where
  count : ℕ
  sum : ℚ
  mean : ℚ
  median : ℚ
  min : ℚ
  max : ℚ
deriving DecidableEq

/-- `CarStatistics.get_mileage_statistics` (lines 449-467). -/
def get_mileage_statistics (st : CarStatisticsState) : Option MileageStats :=
  if st.mileages = [] then none
  else some { count := st.mileages.length
              sum := st.mileages.sum
              mean := mean st.mileages
              median := median st.mileages
              min := min_value st.mileages
              max := max_value st.mileages }

theorem length_filter_lt {α : Type} (p : α → Bool) (l : List α) (c : α)
    (hc : c ∈ l) (hpc : ¬ p c) : (l.filter p).length < l.length := by
  induction l with
  | nil => simp at hc
  | cons a t ih =>
    rcases List.mem_cons.mp hc with h1 | h1
    · have hpa : p a = false := by
        rw [← h1]
        exact Bool.eq_false_iff.mpr hpc
      simp only [List.filter_cons, hpa]
      have := List.length_filter_le p t
      simp
      omega
    · have hlt := ih h1
      by_cases hpa : p a = true
      · simp only [List.filter_cons, hpa]
        simp
        omega
      · simp only [List.filter_cons, Bool.eq_false_iff.mpr hpa]
        simp
        omega

/-- C10: the constructor keeps only the records with `price > 0` in the
price series and only those with `mileage > 0` in the mileage series, so
with a zero-mileage record present the mileage count is strictly below
the collection size, with no error raised. -/
theorem mileage_series_silently_drops_zero (cy : ℤ) (cars : List Car) (c : Car)
    (hmem : c ∈ cars) (hzero : c.mileage = 0) :
    ∃ st, mkCarStatistics cy cars = .ok st ∧
      st.prices = (cars.filter (fun c => 0 < c.price)).map (fun c => c.price) ∧
      st.mileages = (cars.filter (fun c => 0 < c.mileage)).map (fun c => c.mileage) ∧
      st.mileages.length < cars.length ∧
      (∀ s, get_mileage_statistics st = some s → s.count < cars.length) := by
  have hne : cars ≠ [] := by
    intro hc
    rw [hc] at hmem
    simp at hmem
  unfold mkCarStatistics
  rw [if_neg hne]
  refine ⟨_, rfl, rfl, rfl, ?_, ?_⟩
  · rw [List.length_map]
    exact length_filter_lt _ cars c hmem (by simp [hzero])
  · intro s hs
    unfold get_mileage_statistics at hs
    split at hs
    · exact absurd hs (by simp)
    · have : s.count = ((cars.filter (fun c => 0 < c.mileage)).map
          (fun c => c.mileage)).length := by
        cases hs2 : Option.some_injective _ hs
        rfl
      rw [this, List.length_map]
      exact length_filter_lt _ cars c hmem (by simp [hzero])

/-- A zero-mileage car for the C10 witness collection. -/
def carZeroMileage : Car := ⟨"Lada", "Vesta", 2020, 100, 0, "red", "good", .available⟩

/-- A positive-mileage car for the C10 witness collection. -/
def carWithMileage : Car := ⟨"Kia", "Rio", 2019, 200, 5000, "blue", "poor", .sold⟩

/-- The C10 witness collection. -/
def carsWithZeroMileage : List Car := [carZeroMileage, carWithMileage]

/-- C10 witness: a two-car collection with one zero-mileage car reports a
mileage count strictly below 2. -/
theorem mileage_series_silently_drops_zero_witness :
    ∃ st, mkCarStatistics 2025 carsWithZeroMileage = .ok st ∧
      st.prices = (carsWithZeroMileage.filter (fun c => 0 < c.price)).map
        (fun c => c.price) ∧
      st.mileages = (carsWithZeroMileage.filter (fun c => 0 < c.mileage)).map
        (fun c => c.mileage) ∧
      st.mileages.length < carsWithZeroMileage.length ∧
      (∀ s, get_mileage_statistics st = some s →
        s.count < carsWithZeroMileage.length) :=
  mileage_series_silently_drops_zero 2025 carsWithZeroMileage carZeroMileage
    (List.mem_cons_self _ _) rfl

theorem dictValuesSum_dictIncr {α : Type} [DecidableEq α] (d : List (α × ℕ)) (k : α) :
    dictValuesSum (dictIncr d k) = dictValuesSum d + 1 := by
  induction d with
  | nil => rfl
  | cons p t ih =>
    obtain ⟨a, b⟩ := p
    by_cases hak : a = k
    · subst hak
      simp [dictIncr, dictGet, dictSet, dictValuesSum]
      omega
    · simp only [dictIncr, dictGet, dictSet, if_neg hak, dictValuesSum,
        List.map_cons, List.sum_cons] at ih ⊢
      omega

theorem dictValuesSum_countBy {α κ : Type} [DecidableEq κ] (key : α → κ) (xs : List α) :
    dictValuesSum (countBy key xs) = xs.length := by
  suffices h : ∀ d : List (κ × ℕ),
      dictValuesSum (xs.foldl (fun d x => dictIncr d (key x)) d) =
        dictValuesSum d + xs.length by
    simpa [countBy, dictValuesSum] using h []
  induction xs with
  | nil => intro d; simp
  | cons x t ih =>
    intro d
    simp only [List.foldl_cons, List.length_cons]
    rw [ih, dictValuesSum_dictIncr]
    omega

theorem dictValuesSum_insertionSort {α : Type} (r : α × ℕ → α × ℕ → Prop)
    [DecidableRel r] (d : List (α × ℕ)) :
    dictValuesSum (d.insertionSort r) = dictValuesSum d := by
  unfold dictValuesSum
  exact List.Perm.sum_eq (List.Perm.map _ (List.perm_insertionSort r d))

theorem dictSet_eq_append {α : Type} [DecidableEq α] (d : List (α × ℕ)) (k : α) (v : ℕ)
    (h : ∀ p ∈ d, p.1 ≠ k) : dictSet d k v = d ++ [(k, v)] := by
  induction d with
  | nil => rfl
  | cons p t ih =>
    obtain ⟨a, b⟩ := p
    have hak : a ≠ k := h (a, b) (List.mem_cons_self _ _)
    simp only [dictSet, if_neg hak, List.cons_append]
    rw [ih (fun q hq => h q (List.mem_cons_of_mem _ hq))]

theorem foldl_dictSet_of_nodup {α : Type} [DecidableEq α] :
    ∀ (ps : List (α × ℕ)) (d : List (α × ℕ)),
    (d.map Prod.fst ++ ps.map Prod.fst).Nodup →
    ps.foldl (fun acc p => dictSet acc p.1 p.2) d = d ++ ps := by
  intro ps
  induction ps with
  | nil => intro d _; simp
  | cons p t ih =>
    intro d hnd
    simp only [List.foldl_cons]
    have hdisj : ∀ q ∈ d, q.1 ≠ p.1 := by
      intro q hq hqp
      have h1 : q.1 ∈ d.map Prod.fst := List.mem_map_of_mem _ hq
      have h2 : p.1 ∈ p.1 :: t.map Prod.fst := List.mem_cons_self _ _
      have := (List.nodup_append.mp hnd).2.2
      exact this h1 (by rw [hqp]; simpa using h2)
    rw [dictSet_eq_append d p.1 p.2 hdisj]
    have hnd2 : ((d ++ [(p.1, p.2)]).map Prod.fst ++ t.map Prod.fst).Nodup := by
      simp only [List.map_append, List.map_cons, List.map_nil] at hnd ⊢
      have : d.map Prod.fst ++ ([p.1] ++ t.map Prod.fst) =
          (d.map Prod.fst ++ [p.1]) ++ t.map Prod.fst := by
        rw [List.append_assoc]
      rw [← this]
      simpa using hnd
    rw [ih (d ++ [(p.1, p.2)]) hnd2]
    simp

theorem sum_map_add {ι : Type} (xs : List ι) (f g : ι → ℕ) :
    (xs.map (fun i => f i + g i)).sum = (xs.map f).sum + (xs.map g).sum := by
  induction xs with
  | nil => rfl
  | cons x t ih =>
    simp only [List.map_cons, List.sum_cons, ih]
    omega

theorem sum_map_ite_eq_countP {ι : Type} (xs : List ι) (f : ι → Bool) :
    (xs.map (fun i => if f i then 1 else 0)).sum = xs.countP f := by
  induction xs with
  | nil => rfl
  | cons x t ih =>
    simp only [List.map_cons, List.sum_cons, List.countP_cons, ih]
    by_cases hx : f x <;> simp [hx] <;> omega

theorem countP_range_eq_one (n : ℕ) (f : ℕ → Bool) (j : ℕ) (hj : j < n)
    (hfj : f j = true) (huniq : ∀ i, i < n → f i = true → i = j) :
    (List.range n).countP f = 1 := by
  induction n with
  | zero => omega
  | succ m ih =>
    rw [List.range_succ, List.countP_append]
    by_cases hjm : j = m
    · have hcm : (List.range m).countP f = 0 := by
        rw [List.countP_eq_zero]
        intro a ha hfa
        have ham : a < m := List.mem_range.mp ha
        have := huniq a (by omega) hfa
        omega
      subst hjm
      simp [hcm, List.countP_cons, hfj]
    · have hjlt : j < m := by omega
      have hfm : f m = false := by
        by_contra hfm
        have := huniq m (by omega) (by simpa using hfm)
        omega
      rw [ih hjlt (fun i hi hfi => huniq i (by omega) hfi)]
      simp [List.countP_cons, hfm]

theorem bucket_count_one (bins : ℕ) (minp maxp p s : ℚ)
    (hbins : 1 ≤ bins) (hp1 : minp ≤ p) (hp2 : p ≤ maxp)
    (hs : s = if maxp > minp then (maxp - minp) / (bins : ℚ) else 1) :
    (List.range bins).countP
      (fun i => decide (bucketLower minp s i ≤ p ∧
        p < bucketUpper minp maxp s bins i)) = 1 := by
  have hbinsQ : (0 : ℚ) < (bins : ℚ) := by exact_mod_cast hbins
  have hspos : 0 < s := by
    rw [hs]
    split
    · rename_i hgt; exact div_pos (by linarith) hbinsQ
    · norm_num
  set t : ℚ := (p - minp) / s with ht
  have ht0 : 0 ≤ t := div_nonneg (by linarith) hspos.le
  have hj0 : 0 ≤ ⌊t⌋ := Int.le_floor.mpr (by exact_mod_cast ht0)
  set j : ℕ := min (bins - 1) (⌊t⌋).toNat with hjdef
  have hjlt : j < bins := by omega
  have hlow : ∀ i : ℕ, bucketLower minp s i ≤ p ↔ (i : ℚ) ≤ t := by
    intro i
    rw [bucketLower, ht, le_div_iff hspos]
    constructor <;> intro h <;> linarith
  have hup : ∀ i : ℕ, i ≠ bins - 1 →
      (p < bucketUpper minp maxp s bins i ↔ t < (i : ℚ) + 1) := by
    intro i hi
    rw [bucketUpper, if_neg hi, bucketLower, ht, div_lt_iff hspos]
    have hring : ((i : ℚ) + 1) * s = (i : ℚ) * s + s := by ring
    rw [hring]
    constructor <;> intro h <;> linarith
  have hcastj : ((⌊t⌋.toNat : ℕ) : ℚ) = ((⌊t⌋ : ℤ) : ℚ) := by
    exact_mod_cast Int.toNat_of_nonneg hj0
  apply countP_range_eq_one bins _ j hjlt
  · rw [decide_eq_true_eq]
    constructor
    · rw [hlow]
      have hle : j ≤ ⌊t⌋.toNat := min_le_right _ _
      have h1 : ((j : ℕ) : ℚ) ≤ ((⌊t⌋.toNat : ℕ) : ℚ) := by exact_mod_cast hle
      have h2 : ((⌊t⌋ : ℤ) : ℚ) ≤ t := Int.floor_le t
      rw [hcastj] at h1
      linarith
    · by_cases hjb : j = bins - 1
      · rw [bucketUpper, if_pos hjb]
        linarith
      · rw [hup j hjb]
        have hjeq : j = ⌊t⌋.toNat := by omega
        have hlt : t < ((⌊t⌋ : ℤ) : ℚ) + 1 := Int.lt_floor_add_one t
        rw [hjeq, hcastj]
        linarith
  · intro i hi hfi
    rw [decide_eq_true_eq] at hfi
    obtain ⟨hfl, hfu⟩ := hfi
    by_cases hib : i = bins - 1
    · have hge : ((i : ℕ) : ℚ) ≤ t := (hlow i).mp hfl
      have hgei : (i : ℤ) ≤ ⌊t⌋ := Int.le_floor.mpr (by exact_mod_cast hge)
      omega
    · have h1 : ((i : ℕ) : ℚ) ≤ t := (hlow i).mp hfl
      have h2 : t < ((i : ℕ) : ℚ) + 1 := (hup i hib).mp hfu
      have hfloor : ⌊t⌋ = (i : ℤ) := by
        rw [Int.floor_eq_iff]
        constructor
        · exact_mod_cast h1
        · exact_mod_cast h2
      omega

theorem sum_bucket_counts (bins : ℕ) (minp maxp s : ℚ) (hbins : 1 ≤ bins)
    (hs : s = if maxp > minp then (maxp - minp) / (bins : ℚ) else 1) :
    ∀ prices : List ℚ, (∀ p ∈ prices, minp ≤ p ∧ p ≤ maxp) →
    ((List.range bins).map (fun i => prices.countP
      (fun p => decide (bucketLower minp s i ≤ p ∧
        p < bucketUpper minp maxp s bins i)))).sum = prices.length := by
  intro prices
  induction prices with
  | nil => intro _; simp
  | cons q t ih =>
    intro hmem
    have hq := hmem q (List.mem_cons_self _ _)
    have hrest : ∀ p ∈ t, minp ≤ p ∧ p ≤ maxp :=
      fun p hp => hmem p (List.mem_cons_of_mem _ hp)
    simp only [List.countP_cons]
    rw [sum_map_add, ih hrest, sum_map_ite_eq_countP,
      bucket_count_one bins minp maxp q s hbins hq.1 hq.2 hs]
    simp

theorem foldl_dictSet_range {α : Type} [DecidableEq α] (n : ℕ) (key : ℕ → α)
    (cnt : ℕ → ℕ) (hnd : ((List.range n).map key).Nodup) :
    (List.range n).foldl (fun d i => dictSet d (key i) (cnt i)) [] =
      (List.range n).map (fun i => (key i, cnt i)) := by
  have h := foldl_dictSet_of_nodup ((List.range n).map (fun i => (key i, cnt i))) []
    (by simpa [List.map_map, Function.comp] using hnd)
  rw [List.foldl_map] at h
  simpa using h

/-- The bucket keys that `get_price_distribution` generates, in loop
order. -/
def priceBucketKeys (st : CarStatisticsState) (bins : ℕ) : List (ℤ × ℤ) :=
  (List.range bins).map (fun i =>
    bucketKey (min_value st.prices) (max_value st.prices)
      (if max_value st.prices > min_value st.prices then
        (max_value st.prices - min_value st.prices) / (bins : ℚ) else 1) bins i)

/-- C6 (amended): for a non-empty collection of valid records (positive
prices), the year, brand, status, color and condition distribution counts
always sum to the collection size; the price distribution counts sum to
the collection size whenever the bucket count is at least 1 and the
generated bucket labels are pairwise distinct. -/
theorem distribution_counts_sum_to_size (cy : ℤ) (cars : List Car)
    (st : CarStatisticsState) (hmk : mkCarStatistics cy cars = .ok st)
    (hpos : ∀ c ∈ cars, 0 < c.price) (bins : ℕ) (hbins : 1 ≤ bins)
    (hnodup : (priceBucketKeys st bins).Nodup) :
    (∃ d, get_price_distribution st bins = .ok d ∧ dictValuesSum d = cars.length) ∧
    dictValuesSum (get_year_distribution st) = cars.length ∧
    dictValuesSum (get_brand_distribution st) = cars.length ∧
    dictValuesSum (get_status_distribution st) = cars.length ∧
    dictValuesSum (get_color_distribution st) = cars.length ∧
    dictValuesSum (get_condition_distribution st) = cars.length := by
  by_cases hne : cars = []
  · rw [mkCarStatistics, if_pos hne] at hmk
    exact absurd hmk (by simp)
  rw [mkCarStatistics, if_neg hne] at hmk
  have hst := Except.ok.inj hmk
  subst hst
  have hfil : cars.filter (fun c => decide (0 < c.price)) = cars :=
    List.filter_eq_self.mpr (fun c hc => decide_eq_true (hpos c hc))
  constructor
  · -- price distribution
    simp only [get_price_distribution, priceBucketKeys] at hnodup ⊢
    have hprices :
        (cars.filter (fun c => decide (0 < c.price))).map (fun c => c.price) =
          cars.map (fun c => c.price) := by rw [hfil]
    have hpne : (cars.filter (fun c => decide (0 < c.price))).map
        (fun c => c.price) ≠ [] := by
      rw [hprices]
      simpa using hne
    rw [if_neg hpne]
    rw [if_neg (by rintro ⟨-, h0⟩; omega)]
    set prices := (cars.filter (fun c => decide (0 < c.price))).map
      (fun c => c.price) with hpr
    set minp := min_value prices with hminp
    set maxp := max_value prices with hmaxp
    set s := if maxp > minp then (maxp - minp) / (bins : ℚ) else 1 with hsdef
    refine ⟨_, rfl, ?_⟩
    rw [foldl_dictSet_range bins _ _ hnodup]
    unfold dictValuesSum
    rw [List.map_map]
    have hcomp : ((fun p : (ℤ × ℤ) × ℕ => p.2) ∘ (fun i =>
        (bucketKey minp maxp s bins i,
          prices.countP (fun p => decide (bucketLower minp s i ≤ p ∧
            p < bucketUpper minp maxp s bins i))))) =
        (fun i => prices.countP (fun p => decide (bucketLower minp s i ≤ p ∧
          p < bucketUpper minp maxp s bins i))) := rfl
    rw [hcomp]
    rw [sum_bucket_counts bins minp maxp s hbins hsdef prices
      (fun p hp => ⟨min_value_le hpne p hp, le_max_value hpne p hp⟩)]
    rw [hpr, hfil, List.length_map]
  refine ⟨?_, ?_, ?_, ?_, ?_⟩
  · rw [get_year_distribution, dictValuesSum_insertionSort, dictValuesSum_countBy]
  · rw [get_brand_distribution, dictValuesSum_insertionSort, dictValuesSum_countBy]
  · rw [get_status_distribution, dictValuesSum_countBy]
  · rw [get_color_distribution, dictValuesSum_insertionSort, dictValuesSum_countBy]
  · rw [get_condition_distribution, dictValuesSum_countBy]

/-- A one-car collection for the C6 counterexample. -/
def carsOnePrice : List Car :=
  [⟨"Lada", "Vesta", 2020, 100, 10, "red", "good", .available⟩]

/-- A collection whose prices 100 and 100.3 make the ten rounded bucket
labels collide for `bins = 3`. -/
def carsCollidingLabels : List Car :=
  [⟨"Lada", "Vesta", 2020, 100, 10, "red", "good", .available⟩,
   ⟨"Kia", "Rio", 2019, 1003/10, 5, "blue", "good", .sold⟩]

/-- The statistics state built from `carsOnePrice`. -/
def stOnePrice : CarStatisticsState := ⟨carsOnePrice, [100], [2020], [10], [5]⟩

/-- The statistics state built from `carsCollidingLabels`. -/
def stCollidingLabels : CarStatisticsState :=
  ⟨carsCollidingLabels, [100, 1003/10], [2020, 2019], [10, 5], [5, 6]⟩

/-- C6 counterexample: with `bins = 0` the price distribution of a
one-car collection is the empty dictionary (counts sum to 0, not 1), and
with `bins = 3` on prices 100 and 100.3 the first two bucket labels both
round to `(100, 100)`, the second overwriting the first, so the counts
sum to 1, not 2. -/
theorem price_distribution_sum_counterexample :
    mkCarStatistics 2025 carsOnePrice = .ok stOnePrice ∧
    get_price_distribution stOnePrice 0 = .ok [] ∧
    dictValuesSum ([] : List ((ℤ × ℤ) × ℕ)) = 0 ∧
    carsOnePrice.length = 1 ∧
    mkCarStatistics 2025 carsCollidingLabels = .ok stCollidingLabels ∧
    (get_price_distribution stCollidingLabels 3).toOption.map dictValuesSum =
      some 1 ∧
    carsCollidingLabels.length = 2 := by
  refine ⟨?_, ?_, rfl, rfl, ?_, ?_, rfl⟩
  · norm_num [mkCarStatistics, carsOnePrice, stOnePrice, List.filter]
  · norm_num [get_price_distribution, stOnePrice, min_value, max_value]
  · rw [mkCarStatistics, if_neg (by simp [carsCollidingLabels])]
    norm_num [carsCollidingLabels, stCollidingLabels, List.filter]
  · simp only [get_price_distribution]
    rw [if_neg (by simp [stCollidingLabels])]
    norm_num [stCollidingLabels, min_value, max_value,
      min_def, max_def, dictValuesSum, List.range_succ, bucketKey, bucketLower,
      bucketUpper, pyRound, dictSet, List.countP_cons]
    exact ⟨_, rfl, rfl⟩

/-- A valid two-car collection with distinct prices 100 and 200 for the
C6 witness. -/
def carsTwoPrices : List Car :=
  [⟨"Lada", "Vesta", 2020, 100, 10, "red", "good", .available⟩,
   ⟨"Kia", "Rio", 2019, 200, 5, "blue", "poor", .sold⟩]

/-- The statistics state built from `carsTwoPrices`. -/
def stTwoPrices : CarStatisticsState :=
  ⟨carsTwoPrices, [100, 200], [2020, 2019], [10, 5], [5, 6]⟩

/-- C6 witness: on the two-car collection with prices 100 and 200 and 2
buckets, all six distributions sum to 2. -/
theorem distribution_counts_sum_to_size_witness :
    (∃ d, get_price_distribution stTwoPrices 2 = .ok d ∧
        dictValuesSum d = carsTwoPrices.length) ∧
    dictValuesSum (get_year_distribution stTwoPrices) = carsTwoPrices.length ∧
    dictValuesSum (get_brand_distribution stTwoPrices) = carsTwoPrices.length ∧
    dictValuesSum (get_status_distribution stTwoPrices) = carsTwoPrices.length ∧
    dictValuesSum (get_color_distribution stTwoPrices) = carsTwoPrices.length ∧
    dictValuesSum (get_condition_distribution stTwoPrices) = carsTwoPrices.length :=
  distribution_counts_sum_to_size 2025 carsTwoPrices stTwoPrices
    (by rw [mkCarStatistics, if_neg (by simp [carsTwoPrices])]
        norm_num [carsTwoPrices, stTwoPrices, List.filter])
    (by intro c hc
        simp only [carsTwoPrices, List.mem_cons, List.not_mem_nil, or_false] at hc
        rcases hc with h | h <;> subst h <;> norm_num)
    2 (by norm_num)
    (by norm_num [priceBucketKeys, stTwoPrices, bucketKey, bucketLower, bucketUpper,
          min_value, max_value, min_def, max_def, pyRound, List.range_succ])

end AutoStat
